import Mathlib

/-!
# Verification of the Amazon-FMCG metrics and promotion-detection pipelines

Shallow embedding of the pure data-transformation logic of the repository:

* `promotions.py` — `detect_promotions` (price-drop classification);
* `agent.py` — the record-normalization loop inside
  `fetch_google_shopping_peanut_data`, the enrichment function
  `generate_synthetic_campaign_data`, and the pure core of
  `product_recommendation`.

Python floats are modelled by `ℚ`; pandas' NaN / Python's `None` by
`Option`.  `round(x, n)` is modelled by `roundTo n`, using Mathlib's
`round` (half-up); decimal "half" ties are not exactly representable in
binary floats, so any tie convention is an idealization and none of the
theorems below depend on tie behaviour.
-/

namespace FMCG

/-- `round(q, n)` in the decimal sense: round `q` to `n` decimal places,
halves up (`⌊q·10ⁿ + 1/2⌋ / 10ⁿ`, stated through the executable
`Rat.floor`). -/
def roundTo (n : ℕ) (q : ℚ) : ℚ :=
  (((q * 10 ^ n + 1 / 2).floor : ℤ) : ℚ) / 10 ^ n

/-! ## Promotion detection (`promotions.py`) -/

/-- One `{date, price}` observation of the price-history series. -/
structure PricePoint where
  date : String
  price : ℚ
deriving DecidableEq

/-- The tactic labels assigned by `detect_promotions`. -/
inductive Tactic where
  | FLASH_SALE
  | DISCOUNT
  | MINOR_DISCOUNT
deriving DecidableEq

/-- One promotion event as appended by `detect_promotions`
(`date`, `price_before`, `price_during`, `discount_%`, `tactic`). -/
structure PromotionEvent where
  date : String
  price_before : ℚ
  price_during : ℚ
  discount_percent : ℚ
  tactic : Tactic
deriving DecidableEq

/-- The tactic-threshold cascade of `detect_promotions`
(`> 30 → FLASH_SALE`, `> 15 → DISCOUNT`, else `MINOR_DISCOUNT`). -/
def classify (d : ℚ) : Tactic :=
  if 30 < d then Tactic.FLASH_SALE
  else if 15 < d then Tactic.DISCOUNT
  else Tactic.MINOR_DISCOUNT

/-- The event built from one adjacent pair with a strict price decrease:
`discount_percent = (prev − curr) / prev * 100`; the stored field is
`round(discount_percent, 1)` while the tactic is classified on the
unrounded value (`promotions.py` lines 43–58). -/
def mkEvent (prev curr : PricePoint) : PromotionEvent :=
  let discount_percent : ℚ := (prev.price - curr.price) / prev.price * 100
  { date := curr.date
    price_before := prev.price
    price_during := curr.price
    discount_percent := roundTo 1 discount_percent
    tactic := classify discount_percent }

/-- The loop `for i in range(1, len(prices))` of `detect_promotions`,
carrying the previous point. -/
def detectFrom : PricePoint → List PricePoint → List PromotionEvent
  | _, [] => []
  | prev, curr :: rest =>
    if curr.price < prev.price then
      mkEvent prev curr :: detectFrom curr rest
    else
      detectFrom curr rest

/-- `detect_promotions(price_history)`: `none` models a falsy/absent
container (the function returns `[]`); otherwise the value of the
`price_history` key (defaulted to `[]`). -/
def detect_promotions : Option (List PricePoint) → List PromotionEvent
  | none => []
  | some [] => []
  | some (p :: ps) => detectFrom p ps

/-- The adjacent-pair formulation used by the spec: one candidate per pair
`(prices[i-1], prices[i])`, kept exactly when the later price is strictly
lower. -/
def pairEvents (ps : List PricePoint) : List PromotionEvent :=
  (ps.zip ps.tail).filterMap fun pc =>
    if pc.2.price < pc.1.price then some (mkEvent pc.1 pc.2) else none

/-! ## Listing records (`agent.py`) -/

/-- The value found under the `price` key of a raw shopping result:
a nested structure with an optional (numeric-or-absent) `value` field, a
plain number, a string, or anything else / missing (`absent`).  A
non-numeric nested `value` is already folded into `none` here, matching
the later `pd.to_numeric(..., errors='coerce')` pass. -/
inductive RawPrice where
  | dict (value : Option ℚ)
  | num (q : ℚ)
  | str (s : String)
  | absent
deriving DecidableEq

/-- One raw Google-Shopping result as consumed by the normalization loop
of `fetch_google_shopping_peanut_data`.  Every field is optional except
the sponsored flag (`p.get("sponsored", False)`). -/
structure RawProduct where
  product_id : Option String
  title : Option String
  source : Option String
  price : RawPrice
  rating : Option ℚ
  reviews : Option ℤ
  position : Option ℤ
  sponsored : Bool
deriving DecidableEq

/-- One ListingRecord of the enriched table.  The four derived fields are
initialised to neutral values by normalization and (re)computed by
`generate_synthetic_campaign_data`; `avg_competitor_price = none` models a
NaN cell. -/
structure Record where
  product_id : String
  title : String
  brand : String
  category : String
  price : Option ℚ
  rating : Option ℚ
  review_count : ℤ
  search_position : ℤ
  is_sponsored : Bool
  sales_proxy : ℚ
  competitor_count : ℤ
  avg_competitor_price : Option ℚ
  price_vs_market : ℚ
deriving DecidableEq

/-- Price coercion of the normalization loop: `isinstance dict` takes the
nested `value`, numbers pass through, strings go through
`try: float(s) except: None` — modelled by an arbitrary parse oracle
`parseF` — and anything else is `None`. -/
def coerce_price (parseF : String → Option ℚ) : RawPrice → Option ℚ
  | RawPrice.dict v => v
  | RawPrice.num q => some q
  | RawPrice.str s => parseF s
  | RawPrice.absent => none

/-- `position = p.get("position", 1000)` followed by
`position if position else 1000`: a missing or (falsy) zero position
becomes 1000; every other value is kept. -/
def posNorm (pos : Option ℤ) : ℤ :=
  let p0 := pos.getD 1000
  if p0 = 0 then 1000 else p0

/-- `reviews if reviews else 0`: missing or zero review counts become 0. -/
def reviewsNorm (reviews : Option ℤ) : ℤ :=
  match reviews with
  | none => 0
  | some v => if v = 0 then 0 else v

/-- Python truthiness of an optional string: `False` for `None` and for
the empty string. -/
def truthyStr : Option String → Bool
  | none => false
  | some s => !s.isEmpty

/-- Normalization of one raw result (the loop body of
`fetch_google_shopping_peanut_data`, lines 101–137, plus the post-loop
numeric coercions and the `sales_proxy` base metric of lines 145–152).
The record is skipped (`none`) exactly when `product_id` or `title` is
falsy (absent or empty).  The display-only `discount_pct` and
`list_price` pass-through columns are not modelled. -/
def normalizeProduct (parseF : String → Option ℚ) (p : RawProduct) :
    Option Record :=
  match p.product_id, p.title with
  | some pid, some t =>
    if pid.isEmpty || t.isEmpty then none
    else
      some
        { product_id := pid
          title := t
          brand := p.source.getD "Unknown"
          category := "Peanut / Nut Butter"
          price := coerce_price parseF p.price
          rating := p.rating
          review_count := reviewsNorm p.reviews
          search_position := posNorm p.position
          is_sponsored := p.sponsored
          sales_proxy := 1000 / ((max (posNorm p.position) 1 : ℤ) : ℚ)
          competitor_count := 0
          avg_competitor_price := none
          price_vs_market := 0 }
  | _, _ => none

/-- The whole normalization pass over a raw result sequence. -/
def normalize (parseF : String → Option ℚ) (raws : List RawProduct) :
    List Record :=
  raws.filterMap (normalizeProduct parseF)

/-! ## Enrichment (`generate_synthetic_campaign_data`) -/

/-- Number of records of category `c`
(`df.groupby("category")["product_id"].transform("count")`). -/
def countCat (rs : List Record) (c : String) : ℕ :=
  (rs.filter fun r => r.category = c).length

/-- pandas `mean` over the `price` column: NaN entries are skipped, the
mean of an all-NaN / empty column is NaN (`none`). -/
def meanPrice (rs : List Record) : Option ℚ :=
  let ps := rs.filterMap Record.price
  if ps.isEmpty then none else some (ps.sum / (ps.length : ℚ))

/-- `avg_cat_price.fillna(df["price"].mean())`: the category mean, or the
whole-set mean when the category mean is NaN. -/
def avgCompetitorPrice (rs : List Record) (c : String) : Option ℚ :=
  match meanPrice (rs.filter fun r => r.category = c) with
  | some m => some m
  | none => meanPrice rs

/-- `price_vs_market`: 0 by default, replaced by
`round((price − avg) / avg * 100, 2)` exactly on the mask
`price.notna() & (avg_competitor_price > 0)` (a NaN `avg` fails the
comparison). -/
def priceVsMarket (price avg : Option ℚ) : ℚ :=
  match price, avg with
  | some p, some a => if 0 < a then roundTo 2 ((p - a) / a * 100) else 0
  | _, _ => 0

/-- Derived fields of one record, computed from the base fields of the
whole set `rs` (`generate_synthetic_campaign_data`, lines 38–54).  The
`pd.to_numeric` coercion of line 35 is the identity here because `price`
is already numeric-or-absent. -/
def enrichOne (rs : List Record) (r : Record) : Record :=
  let avg := avgCompetitorPrice rs r.category
  { r with
    sales_proxy := 1000 / ((max r.search_position 1 : ℤ) : ℚ)
    competitor_count := max ((countCat rs r.category : ℤ) - 1) 0
    avg_competitor_price := avg
    price_vs_market := priceVsMarket r.price avg }

/-- `generate_synthetic_campaign_data`: recompute the four derived columns
of every row from the base columns of the whole set. -/
def generate_synthetic_campaign_data (rs : List Record) : List Record :=
  rs.map (enrichOne rs)

/-! ## Recommendation (`product_recommendation`) -/

/-- `Series.str.contains(needle, case=False)` for one cell:
case-insensitive substring containment. -/
def containsCI (hay needle : String) : Bool :=
  decide (needle.toLower.toList <:+: hay.toLower.toList)

/-- pandas `nlargest(n, "rating")` with `keep='first'`: the rows with a
non-NaN key sorted descending (ties kept in original order), followed by
the NaN-key rows in original order as padding, truncated to `n` — both
the `n < len` path (`concat([dropped.iloc[inds], nan_index]).iloc[:n]`)
and the `n ≥ len` path (`sort_values(ascending=False).head(n)`, NaNs
placed last) produce exactly this. -/
def nlargestRating (n : ℕ) (rs : List Record) : List Record :=
  ((((rs.filter fun r => r.rating.isSome).mergeSort
      fun a b => b.rating.getD 0 ≤ a.rating.getD 0) ++
    rs.filter fun r => r.rating.isNone).take n)

/-- `Series.max()` over the `review_count` column of a (nonempty) frame;
the `[]` case is arbitrary (pandas would give NaN) and never reached by
the caller. -/
def maxReview : List Record → ℤ
  | [] => 0
  | r :: rs => rs.foldl (fun m x => max m x.review_count) r.review_count

/-- The weighted score of the recommendation branch:
`rating.fillna(0) / 5 * 70 + review_count / m * 30` where `m` is the
maximum review count of the candidate set. -/
def score (m : ℤ) (r : Record) : ℚ :=
  r.rating.getD 0 / 5 * 70 + (r.review_count : ℚ) / (m : ℚ) * 30

/-- `nlargest(n, "score")` over a candidate set whose scores are all
defined: stable descending sort by score, truncated to `n`. -/
def nlargestScore (n : ℕ) (rs : List Record) : List Record :=
  ((rs.mergeSort fun a b =>
    score (maxReview rs) b ≤ score (maxReview rs) a).take n)

/-- The pure core of `product_recommendation` (lines 224–241): the
`top_products` frame it formats, given the fetched table `df` and the
requested category text. -/
def product_recommendation (df : List Record) (category : String) :
    List Record :=
  let category_df := df.filter fun r => containsCI r.category category
  let category_df := if category_df.isEmpty then df else category_df
  let filtered := category_df.filter fun r => 5 ≤ r.review_count
  if filtered.isEmpty then
    nlargestRating 5 df
  else
    nlargestScore 5 filtered

/-- The "(possibly category-fallback) candidate set" of the spec: records
whose category contains the requested text, or the whole set when that
filter is empty. -/
def candidates (df : List Record) (category : String) : List Record :=
  let cdf := df.filter fun r => containsCI r.category category
  if cdf.isEmpty then df else cdf

/-! ## Concrete instances used to instantiate the theorems -/

/-- A parse oracle that rejects every string (every `float(s)` raises). -/
def noParse : String → Option ℚ := fun _ => none

/-- One concrete normalized record. -/
def sampleRec : Record :=
  { product_id := "A", title := "X", brand := "B", category := "c",
    price := some 10, rating := some 4, review_count := 7,
    search_position := 2, is_sponsored := false,
    sales_proxy := 0, competitor_count := 0,
    avg_competitor_price := none, price_vs_market := 0 }

/-- A raw product that survives normalization, with a chosen reported
position. -/
def rawWithPosition (pos : Option ℤ) : RawProduct :=
  { product_id := some "A", title := some "T", source := none,
    price := RawPrice.absent, rating := none, reviews := none,
    position := pos, sponsored := false }

/-! ## Helper lemmas -/

/-- The executable `Rat.floor` agrees with the `FloorRing` floor. -/
theorem ratFloor_eq_floor (q : ℚ) : q.floor = ⌊q⌋ :=
  (Rat.floor_def' q).trans Rat.floor_def.symm

/-- The previous-point recursion walks exactly the adjacent pairs of
`prev :: ps`. -/
theorem detectFrom_eq_pairs (prev : PricePoint) (ps : List PricePoint) :
    detectFrom prev ps =
      ((prev :: ps).zip ps).filterMap fun pc =>
        if pc.2.price < pc.1.price then some (mkEvent pc.1 pc.2) else none := by
  induction ps generalizing prev with
  | nil => rfl
  | cons curr rest ih =>
    simp only [detectFrom, List.zip_cons_cons, List.filterMap_cons]
    by_cases h : curr.price < prev.price
    · simp only [if_pos h, ih curr]
    · simp only [if_neg h, ih curr]

/-- `detect_promotions` is the adjacent-pair filter of the spec. -/
theorem detect_promotions_eq_pairEvents (ps : List PricePoint) :
    detect_promotions (some ps) = pairEvents ps := by
  cases ps with
  | nil => rfl
  | cons p t => exact (detectFrom_eq_pairs p t).trans rfl

/-- At most one event per adjacent pair. -/
theorem detectFrom_length_le (prev : PricePoint) (ps : List PricePoint) :
    (detectFrom prev ps).length ≤ ps.length := by
  induction ps generalizing prev with
  | nil => exact Nat.le_refl 0
  | cons curr rest ih =>
    simp only [detectFrom]
    by_cases h : curr.price < prev.price
    · simpa [h] using Nat.succ_le_succ (ih curr)
    · simpa [h] using Nat.le_succ_of_le (ih curr)

/-- Every emitted event comes from an adjacent strictly-decreasing pair
whose points both occur in `prev :: ps`. -/
theorem mem_detectFrom {e : PromotionEvent} :
    ∀ {prev : PricePoint} {ps : List PricePoint}, e ∈ detectFrom prev ps →
      ∃ a b, (a = prev ∨ a ∈ ps) ∧ b ∈ ps ∧ b.price < a.price ∧
        e = mkEvent a b := by
  intro prev ps
  induction ps generalizing prev with
  | nil => intro h; exact absurd h (List.not_mem_nil e)
  | cons curr rest ih =>
    intro h
    simp only [detectFrom] at h
    by_cases hlt : curr.price < prev.price
    · rw [if_pos hlt] at h
      rcases List.mem_cons.mp h with he | he
      · exact ⟨prev, curr, Or.inl rfl, List.mem_cons_self curr rest, hlt, he⟩
      · rcases ih he with ⟨a, b, ha, hb, hab, hee⟩
        refine ⟨a, b, ?_, List.mem_cons_of_mem curr hb, hab, hee⟩
        rcases ha with ha | ha
        · exact Or.inr (ha ▸ List.mem_cons_self curr rest)
        · exact Or.inr (List.mem_cons_of_mem curr ha)
    · rw [if_neg hlt] at h
      rcases ih h with ⟨a, b, ha, hb, hab, hee⟩
      refine ⟨a, b, ?_, List.mem_cons_of_mem curr hb, hab, hee⟩
      rcases ha with ha | ha
      · exact Or.inr (ha ▸ List.mem_cons_self curr rest)
      · exact Or.inr (List.mem_cons_of_mem curr ha)

/-! ## Claim C1 -/

/-- Claim C1, counterexample to the claim as stated: on the series
`[2500, 1749]` the raw discount is 30.04 %, so the code emits an event
whose stored `discount_percent` is the rounded value 30.0 but whose
tactic is `FLASH_SALE`, while the threshold cascade applied to the
stored `discount_percent` (as the claim reads) yields `DISCOUNT`. -/
theorem detect_promotions_rounded_tactic_cex :
    detect_promotions (some [⟨"2024-01-01", 2500⟩, ⟨"2024-01-02", 1749⟩]) =
      [⟨"2024-01-02", 2500, 1749, 30, Tactic.FLASH_SALE⟩] ∧
    classify 30 = Tactic.DISCOUNT ∧
    Tactic.FLASH_SALE ≠ Tactic.DISCOUNT := by
  refine ⟨?_, ?_, ?_⟩
  · norm_num [detect_promotions, detectFrom, mkEvent, classify, roundTo,
      ratFloor_eq_floor]
  · norm_num [classify]
  · intro h; exact Tactic.noConfusion h

/-- Claim C1 (amended): `detect_promotions` emits exactly one event per
adjacent pair whose later price is strictly lower (increases and
unchanged prices produce no event), with the stored `discount_percent`
equal to `(prev − curr) / prev × 100` rounded to 1 decimal and the tactic
determined by the exclusive lower bounds `> 30 → FLASH_SALE`,
`> 15 → DISCOUNT`, else `MINOR_DISCOUNT`, applied to the unrounded
discount; `[50, 44]` yields one `MINOR_DISCOUNT` event, `[50, 40]` one
`DISCOUNT` event, and `[100, 100, 60]` exactly one event with
`discount_percent` 40.0 and tactic `FLASH_SALE`. -/
theorem detect_promotions_adjacent_pairs :
    (∀ ps : List PricePoint,
        detect_promotions (some ps) =
          (ps.zip ps.tail).filterMap fun pc =>
            if pc.2.price < pc.1.price then
              some
                { date := pc.2.date
                  price_before := pc.1.price
                  price_during := pc.2.price
                  discount_percent :=
                    roundTo 1 ((pc.1.price - pc.2.price) / pc.1.price * 100)
                  tactic :=
                    classify ((pc.1.price - pc.2.price) / pc.1.price * 100) }
            else none) ∧
    detect_promotions (some [⟨"d0", 50⟩, ⟨"d1", 44⟩]) =
      [⟨"d1", 50, 44, 12, Tactic.MINOR_DISCOUNT⟩] ∧
    detect_promotions (some [⟨"d0", 50⟩, ⟨"d1", 40⟩]) =
      [⟨"d1", 50, 40, 20, Tactic.DISCOUNT⟩] ∧
    detect_promotions (some [⟨"d0", 100⟩, ⟨"d1", 100⟩, ⟨"d2", 60⟩]) =
      [⟨"d2", 100, 60, 40, Tactic.FLASH_SALE⟩] := by
  refine ⟨?_, ?_, ?_, ?_⟩
  · intro ps
    exact detect_promotions_eq_pairEvents ps
  · norm_num [detect_promotions, detectFrom, mkEvent, classify, roundTo,
      ratFloor_eq_floor]
  · norm_num [detect_promotions, detectFrom, mkEvent, classify, roundTo,
      ratFloor_eq_floor]
  · norm_num [detect_promotions, detectFrom, mkEvent, classify, roundTo,
      ratFloor_eq_floor]

/-! ## Claim C7 -/

/-- Claim C7: `detect_promotions` is total (the embedding is a total
function); the output has at most `length − 1` events, and an absent
container, an empty series or a single-point series each yield `[]`. -/
theorem detect_promotions_safe :
    (∀ ps : List PricePoint,
        (detect_promotions (some ps)).length ≤ ps.length - 1) ∧
    detect_promotions none = [] ∧
    detect_promotions (some []) = [] ∧
    ∀ p : PricePoint, detect_promotions (some [p]) = [] := by
  refine ⟨?_, rfl, rfl, fun p => rfl⟩
  intro ps
  cases ps with
  | nil => exact Nat.le_refl 0
  | cons p t => simpa using detectFrom_length_le p t

/-! ## Claim C10 -/

/-- One-decimal rounding keeps a value of `[0, 100]` inside `[0, 100]`. -/
theorem roundTo_one_bounds {d : ℚ} (h0 : 0 ≤ d) (h100 : d ≤ 100) :
    0 ≤ roundTo 1 d ∧ roundTo 1 d ≤ 100 := by
  have hfl : (0 : ℤ) ≤ ⌊d * 10 ^ 1 + 1 / 2⌋ := by
    apply Int.floor_nonneg.mpr
    linarith
  have hfu : ⌊d * 10 ^ 1 + 1 / 2⌋ ≤ 1000 := by
    have hlt : ⌊d * 10 ^ 1 + 1 / 2⌋ < 1001 := by
      apply Int.floor_lt.mpr
      push_cast
      linarith
    omega
  constructor
  · rw [roundTo, ratFloor_eq_floor]
    have hc : (0 : ℚ) ≤ ((⌊d * 10 ^ 1 + 1 / 2⌋ : ℤ) : ℚ) := by
      exact_mod_cast hfl
    exact div_nonneg hc (by norm_num)
  · rw [roundTo, ratFloor_eq_floor]
    have hc : ((⌊d * 10 ^ 1 + 1 / 2⌋ : ℤ) : ℚ) ≤ 1000 := by
      exact_mod_cast hfu
    rw [div_le_iff₀ (by norm_num : (0 : ℚ) < 10 ^ 1)]
    linarith

/-- Claim C10, counterexample to the claim as stated: on the non-negative
series `[10000, 9999]` the raw discount 0.01 % rounds to 0.0, so the
emitted event's stored `discount_percent` is 0, outside `(0, 100]`. -/
theorem detect_promotions_zero_discount_cex :
    (0 : ℚ) ≤ 10000 ∧ (0 : ℚ) ≤ 9999 ∧
    detect_promotions (some [⟨"d0", 10000⟩, ⟨"d1", 9999⟩]) =
      [⟨"d1", 10000, 9999, 0, Tactic.MINOR_DISCOUNT⟩] ∧
    ¬ (0 : ℚ) < 0 := by
  refine ⟨by norm_num, by norm_num, ?_, by norm_num⟩
  norm_num [detect_promotions, detectFrom, mkEvent, classify, roundTo,
    ratFloor_eq_floor]

/-- Claim C10 (amended): on a series of non-negative prices every emitted
event satisfies `0 ≤ price_during < price_before`, `price_before` is
strictly positive (so the division is well-defined), the unrounded
discount `(price_before − price_during) / price_before × 100` lies in
`(0, 100]`, and the stored 1-decimal-rounded `discount_percent` lies in
`[0, 100]`. -/
theorem detect_promotions_bounds (ps : List PricePoint)
    (hps : ∀ p ∈ ps, 0 ≤ p.price) :
    ∀ e ∈ detect_promotions (some ps),
      0 ≤ e.price_during ∧ e.price_during < e.price_before ∧
      0 < e.price_before ∧
      0 < (e.price_before - e.price_during) / e.price_before * 100 ∧
      (e.price_before - e.price_during) / e.price_before * 100 ≤ 100 ∧
      0 ≤ e.discount_percent ∧ e.discount_percent ≤ 100 := by
  intro e he
  cases ps with
  | nil => exact absurd he (List.not_mem_nil e)
  | cons p t =>
    rcases mem_detectFrom he with ⟨a, b, ha, hb, hlt, rfl⟩
    have hb0 : 0 ≤ b.price := hps b (List.mem_cons_of_mem p hb)
    have ha_mem : a ∈ p :: t := by
      rcases ha with h | h
      · exact h ▸ List.mem_cons_self p t
      · exact List.mem_cons_of_mem p h
    have hpos : 0 < a.price := lt_of_le_of_lt hb0 hlt
    have hd0 : 0 < (a.price - b.price) / a.price * 100 :=
      mul_pos (div_pos (sub_pos.mpr hlt) hpos) (by norm_num)
    have hd100 : (a.price - b.price) / a.price * 100 ≤ 100 := by
      have h1 : (a.price - b.price) / a.price ≤ 1 :=
        (div_le_one hpos).mpr (by linarith)
      linarith
    have hround := roundTo_one_bounds (le_of_lt hd0) hd100
    exact ⟨hb0, hlt, hpos, hd0, hd100, hround.1, hround.2⟩

/-- Claim C10, witness: the concrete series `[50, 40]` instantiates the
bounds at its one emitted event `⟨50, 40, 20.0, DISCOUNT⟩`. -/
theorem detect_promotions_bounds_witness :
    (0 : ℚ) ≤ 40 ∧ (40 : ℚ) < 50 ∧ (0 : ℚ) < 50 ∧
    (0 : ℚ) < ((50 : ℚ) - 40) / 50 * 100 ∧
    ((50 : ℚ) - 40) / 50 * 100 ≤ 100 ∧
    (0 : ℚ) ≤ 20 ∧ (20 : ℚ) ≤ 100 :=
  detect_promotions_bounds [⟨"d0", 50⟩, ⟨"d1", 40⟩]
    (by norm_num [List.forall_mem_cons])
    ⟨"d1", 50, 40, 20, Tactic.DISCOUNT⟩
    (by
      have h : detect_promotions (some [⟨"d0", 50⟩, ⟨"d1", 40⟩]) =
          [⟨"d1", 50, 40, 20, Tactic.DISCOUNT⟩] := by
        norm_num [detect_promotions, detectFrom, mkEvent, classify, roundTo,
          ratFloor_eq_floor]
      rw [h]
      exact List.mem_singleton.mpr rfl)

/-! ## Enrichment preservation lemmas -/

/-- Enrichment never changes a record's category. -/
theorem enrichOne_category (rs : List Record) (r : Record) :
    (enrichOne rs r).category = r.category := rfl

/-- Filtering by category commutes with enrichment of every row. -/
theorem filter_category_map (rs l : List Record) (c : String) :
    (l.map (enrichOne rs)).filter (fun r => r.category = c) =
      (l.filter fun r => r.category = c).map (enrichOne rs) := by
  rw [List.filter_map]
  rfl

/-- Enrichment never changes the multiset of present prices. -/
theorem filterMap_price_map (rs l : List Record) :
    (l.map (enrichOne rs)).filterMap Record.price =
      l.filterMap Record.price := by
  rw [List.filterMap_map]
  rfl

/-- Category sizes are unchanged by enrichment. -/
theorem countCat_generate (rs : List Record) (c : String) :
    countCat (generate_synthetic_campaign_data rs) c = countCat rs c := by
  unfold countCat generate_synthetic_campaign_data
  rw [filter_category_map, List.length_map]

/-- In-category price means are unchanged by enrichment. -/
theorem meanPrice_generate_filter (rs : List Record) (c : String) :
    meanPrice
        ((generate_synthetic_campaign_data rs).filter fun r =>
          r.category = c) =
      meanPrice (rs.filter fun r => r.category = c) := by
  unfold generate_synthetic_campaign_data
  rw [filter_category_map]
  unfold meanPrice
  rw [filterMap_price_map]

/-- The whole-set price mean is unchanged by enrichment. -/
theorem meanPrice_generate (rs : List Record) :
    meanPrice (generate_synthetic_campaign_data rs) = meanPrice rs := by
  unfold meanPrice generate_synthetic_campaign_data
  rw [filterMap_price_map]

/-- `avg_competitor_price` inputs are unchanged by enrichment. -/
theorem avgCompetitorPrice_generate (rs : List Record) (c : String) :
    avgCompetitorPrice (generate_synthetic_campaign_data rs) c =
      avgCompetitorPrice rs c := by
  unfold avgCompetitorPrice
  rw [meanPrice_generate_filter, meanPrice_generate]

/-- Re-enriching an already enriched record over the enriched set changes
nothing: the derived fields are recomputed from the same base fields. -/
theorem enrichOne_enrichOne (rs : List Record) (r : Record) :
    enrichOne (generate_synthetic_campaign_data rs) (enrichOne rs r) =
      enrichOne rs r := by
  unfold enrichOne
  rw [avgCompetitorPrice_generate, countCat_generate]

/-- `generate_synthetic_campaign_data` is idempotent. -/
theorem generate_idempotent (rs : List Record) :
    generate_synthetic_campaign_data (generate_synthetic_campaign_data rs) =
      generate_synthetic_campaign_data rs := by
  show (rs.map (enrichOne rs)).map
      (enrichOne (generate_synthetic_campaign_data rs)) =
    rs.map (enrichOne rs)
  rw [List.map_map]
  exact List.map_congr_left fun r _ => enrichOne_enrichOne rs r

/-- `priceVsMarket` is 0 when the price is absent or the average is
absent or non-positive. -/
theorem priceVsMarket_zero (price avg : Option ℚ)
    (h : price = none ∨ avg = none ∨ ∃ a, avg = some a ∧ a ≤ 0) :
    priceVsMarket price avg = 0 := by
  rcases h with h | h | ⟨a, ha, hle⟩
  · subst h; cases avg <;> rfl
  · subst h; cases price <;> rfl
  · subst ha
    cases price with
    | none => rfl
    | some p => simp [priceVsMarket, not_lt.mpr hle]

/-- `priceVsMarket` on present price and positive average is the rounded
percentage deviation. -/
theorem priceVsMarket_pos (p a : ℚ) (ha : 0 < a) :
    priceVsMarket (some p) (some a) = roundTo 2 ((p - a) / a * 100) := by
  simp [priceVsMarket, ha]

/-! ## Claim C2 -/

/-- Claim C2: for every enriched record, `price_vs_market` is 0 whenever
`price` is absent or `avg_competitor_price` is absent or non-positive,
and otherwise equals `((price − avg) / avg) × 100` rounded to 2
decimals. -/
theorem price_vs_market_spec :
    ∀ rs : List Record, ∀ r ∈ generate_synthetic_campaign_data rs,
      ((r.price = none ∨ r.avg_competitor_price = none ∨
          ∃ a, r.avg_competitor_price = some a ∧ a ≤ 0) →
        r.price_vs_market = 0) ∧
      ∀ p a, r.price = some p → r.avg_competitor_price = some a → 0 < a →
        r.price_vs_market = roundTo 2 ((p - a) / a * 100) := by
  intro rs r hr
  rcases List.mem_map.mp hr with ⟨x, hx, rfl⟩
  constructor
  · intro h
    exact priceVsMarket_zero x.price (avgCompetitorPrice rs x.category) h
  · intro p a hp ha hpos
    show priceVsMarket x.price (avgCompetitorPrice rs x.category) =
      roundTo 2 ((p - a) / a * 100)
    rw [show x.price = some p from hp,
      show avgCompetitorPrice rs x.category = some a from ha]
    exact priceVsMarket_pos p a hpos

/-- Claim C2, witness: the lone record `sampleRec` (price 10, category
average 10) gets `price_vs_market = round((10 − 10)/10 × 100, 2)`. -/
theorem price_vs_market_spec_witness :
    (enrichOne [sampleRec] sampleRec).price_vs_market =
      roundTo 2 (((10 : ℚ) - 10) / 10 * 100) :=
  (price_vs_market_spec [sampleRec] (enrichOne [sampleRec] sampleRec)
      (List.mem_map.mpr ⟨sampleRec, List.mem_singleton.mpr rfl, rfl⟩)).2
    10 10 rfl
    (by simp [enrichOne, avgCompetitorPrice, meanPrice, sampleRec])
    (by norm_num)

/-! ## Claim C5 -/

/-- Claim C5: `generate_synthetic_campaign_data` returns exactly as many
rows as it receives, leaves the category partitioning unchanged, and
applying it a second time to its own output yields the same output. -/
theorem generate_preserves_and_idempotent (rs : List Record) :
    (generate_synthetic_campaign_data rs).length = rs.length ∧
    (generate_synthetic_campaign_data rs).map Record.category =
      rs.map Record.category ∧
    generate_synthetic_campaign_data (generate_synthetic_campaign_data rs) =
      generate_synthetic_campaign_data rs := by
  refine ⟨?_, ?_, generate_idempotent rs⟩
  · exact List.length_map rs (enrichOne rs)
  · show (rs.map (enrichOne rs)).map Record.category =
      rs.map Record.category
    rw [List.map_map]
    rfl

/-! ## Claim C6 -/

/-- Claim C6: after enrichment every record's `competitor_count` equals
the number of records sharing its category minus 1, floored at 0; it is
never negative, and a record alone in its category has
`competitor_count` 0. -/
theorem competitor_count_spec :
    ∀ rs : List Record, ∀ r ∈ generate_synthetic_campaign_data rs,
      r.competitor_count =
        max ((countCat (generate_synthetic_campaign_data rs) r.category : ℤ)
          - 1) 0 ∧
      0 ≤ r.competitor_count ∧
      (countCat (generate_synthetic_campaign_data rs) r.category = 1 →
        r.competitor_count = 0) := by
  intro rs r hr
  rcases List.mem_map.mp hr with ⟨x, hx, rfl⟩
  refine ⟨?_, le_max_right _ _, ?_⟩
  · show max ((countCat rs x.category : ℤ) - 1) 0 =
      max ((countCat (generate_synthetic_campaign_data rs) x.category : ℤ)
        - 1) 0
    rw [countCat_generate]
  · intro h
    rw [enrichOne_category, countCat_generate] at h
    show max ((countCat rs x.category : ℤ) - 1) 0 = 0
    rw [h]
    norm_num

/-- Claim C6, witness: `sampleRec` alone in category "c" gets
`competitor_count` 0. -/
theorem competitor_count_spec_witness :
    (enrichOne [sampleRec] sampleRec).competitor_count = 0 :=
  (competitor_count_spec [sampleRec] (enrichOne [sampleRec] sampleRec)
      (List.mem_map.mpr ⟨sampleRec, List.mem_singleton.mpr rfl, rfl⟩)).2.2
    (by rfl)

/-! ## Claim C3 -/

/-- Normalizing the one concrete raw product evaluates to one record
whose position fields depend only on `posNorm pos`. -/
theorem normalize_rawWithPosition (pos : Option ℤ) :
    normalize noParse [rawWithPosition pos] =
      [{ product_id := "A", title := "T", brand := "Unknown",
         category := "Peanut / Nut Butter", price := none, rating := none,
         review_count := 0, search_position := posNorm pos,
         is_sponsored := false,
         sales_proxy := 1000 / ((max (posNorm pos) 1 : ℤ) : ℚ),
         competitor_count := 0, avg_competitor_price := none,
         price_vs_market := 0 }] := rfl

/-- Claim C3, counterexample to the claim as stated: a raw product whose
reported position is 0 is falsy in `position if position else 1000`, so
normalization stores `search_position` 1000 and the enriched
`sales_proxy` is 1.0, not the claimed 1000. -/
theorem sales_proxy_zero_position_cex :
    (generate_synthetic_campaign_data
        (normalize noParse [rawWithPosition (some 0)])).map
      Record.sales_proxy = [1] ∧
    (generate_synthetic_campaign_data
        (normalize noParse [rawWithPosition (some 0)])).map
      Record.search_position = [1000] ∧
    (1 : ℚ) ≠ 1000 := by
  refine ⟨?_, ?_, by norm_num⟩
  · rw [normalize_rawWithPosition]
    norm_num [generate_synthetic_campaign_data, enrichOne, posNorm]
  · rw [normalize_rawWithPosition]
    norm_num [generate_synthetic_campaign_data, enrichOne, posNorm]

/-- Claim C3 (amended): every enriched record has
`sales_proxy = 1000 / max(search_position, 1)`; normalization maps an
absent or zero reported position to 1000 and keeps every other reported
value, so a negative reported position yields `sales_proxy` 1000 while a
zero or absent reported position yields `sales_proxy` 1.0. -/
theorem sales_proxy_spec :
    (∀ rs : List Record, ∀ r ∈ generate_synthetic_campaign_data rs,
        r.sales_proxy = 1000 / ((max r.search_position 1 : ℤ) : ℚ)) ∧
    (∀ parseF : String → Option ℚ, ∀ p : RawProduct, ∀ rec : Record,
        normalizeProduct parseF p = some rec →
        rec.search_position =
          (if p.position.getD 1000 = 0 then 1000
           else p.position.getD 1000)) ∧
    (generate_synthetic_campaign_data
        (normalize noParse [rawWithPosition (some (-3))])).map
      Record.sales_proxy = [1000] ∧
    (generate_synthetic_campaign_data
        (normalize noParse [rawWithPosition none])).map
      Record.sales_proxy = [1] := by
  refine ⟨?_, ?_, ?_, ?_⟩
  · intro rs r hr
    rcases List.mem_map.mp hr with ⟨x, hx, rfl⟩
    rfl
  · intro parseF p rec h
    obtain ⟨pid0, t0, src, pr, ra, re, pos, sp⟩ := p
    cases pid0 with
    | none => exact absurd h (by simp [normalizeProduct])
    | some pid =>
      cases t0 with
      | none => exact absurd h (by simp [normalizeProduct])
      | some t =>
        simp only [normalizeProduct] at h
        by_cases he : pid.isEmpty || t.isEmpty
        · rw [if_pos he] at h
          exact absurd h (by simp)
        · rw [if_neg he] at h
          rw [Option.some_inj] at h
          subst h
          rfl
  · rw [normalize_rawWithPosition]
    norm_num [generate_synthetic_campaign_data, enrichOne, posNorm]
  · rw [normalize_rawWithPosition]
    norm_num [generate_synthetic_campaign_data, enrichOne, posNorm]

/-! ## Normalization lemmas -/

/-- A raw product survives normalization exactly when both `product_id`
and `title` are truthy. -/
theorem normalizeProduct_isSome (parseF : String → Option ℚ)
    (p : RawProduct) :
    (normalizeProduct parseF p).isSome =
      (truthyStr p.product_id && truthyStr p.title) := by
  obtain ⟨pid0, t0, src, pr, ra, re, pos, sp⟩ := p
  cases pid0 with
  | none => rfl
  | some pid =>
    cases t0 with
    | none => simp [normalizeProduct, truthyStr]
    | some t =>
      cases hpe : pid.isEmpty <;> cases hte : t.isEmpty <;>
        simp [normalizeProduct, truthyStr, hpe, hte]

/-- A surviving record keeps a non-empty identifier and title and its
price is the coercion of the raw price. -/
theorem normalizeProduct_fields (parseF : String → Option ℚ)
    (p : RawProduct) (rec : Record)
    (h : normalizeProduct parseF p = some rec) :
    rec.product_id ≠ "" ∧ rec.title ≠ "" ∧
    rec.price = coerce_price parseF p.price := by
  obtain ⟨pid0, t0, src, pr, ra, re, pos, sp⟩ := p
  cases pid0 with
  | none => exact absurd h (by simp [normalizeProduct])
  | some pid =>
    cases t0 with
    | none => exact absurd h (by simp [normalizeProduct])
    | some t =>
      simp only [normalizeProduct] at h
      by_cases he : pid.isEmpty || t.isEmpty
      · rw [if_pos he] at h
        exact absurd h (by simp)
      · rw [if_neg he] at h
        rw [Option.some_inj] at h
        subst h
        simp only [Bool.or_eq_true, not_or, Bool.not_eq_true] at he
        refine ⟨?_, ?_, rfl⟩
        · intro hpid
          have hpid2 : pid = "" := hpid
          rw [hpid2] at he
          exact Bool.noConfusion he.1
        · intro hti
          have hti2 : t = "" := hti
          rw [hti2] at he
          exact Bool.noConfusion he.2

/-- `normalize` drops exactly the records with a falsy identifier or
title. -/
theorem normalize_length_eq (parseF : String → Option ℚ)
    (raws : List RawProduct) :
    (normalize parseF raws).length =
      (raws.filter fun p =>
        truthyStr p.product_id && truthyStr p.title).length := by
  induction raws with
  | nil => rfl
  | cons p t ih =>
    unfold normalize at ih ⊢
    rw [List.filterMap_cons, List.filter_cons]
    rcases hnp : normalizeProduct parseF p with _ | rec
    · have hcond : (truthyStr p.product_id && truthyStr p.title) = false := by
        rw [← normalizeProduct_isSome parseF p, hnp]; rfl
      simp [hcond, ih]
    · have hcond : (truthyStr p.product_id && truthyStr p.title) = true := by
        rw [← normalizeProduct_isSome parseF p, hnp]; rfl
      simp [hcond, ih]

/-! ## Claim C8 -/

/-- Claim C8: `normalize` produces at most as many records as it
receives, dropping exactly the raw records with a missing-or-empty
identifier or title (and nothing else); every output record has a
non-empty identifier and title, and a string price that fails to parse
degrades that record's price to absent instead of failing the batch. -/
theorem normalize_spec :
    ∀ parseF : String → Option ℚ, ∀ raws : List RawProduct,
      (normalize parseF raws).length ≤ raws.length ∧
      (normalize parseF raws).length =
        (raws.filter fun p =>
          truthyStr p.product_id && truthyStr p.title).length ∧
      (∀ r ∈ normalize parseF raws, r.product_id ≠ "" ∧ r.title ≠ "") ∧
      (∀ p : RawProduct, ∀ rec : Record,
          normalizeProduct parseF p = some rec →
          rec.price = coerce_price parseF p.price) ∧
      (∀ s : String, coerce_price parseF (RawPrice.str s) = parseF s) := by
  intro parseF raws
  refine ⟨List.length_filterMap_le _ _, normalize_length_eq parseF raws,
    ?_, ?_, fun s => rfl⟩
  · intro r hr
    rcases List.mem_filterMap.mp hr with ⟨p, hp, hnp⟩
    exact ⟨(normalizeProduct_fields parseF p r hnp).1,
      (normalizeProduct_fields parseF p r hnp).2.1⟩
  · intro p rec h
    exact (normalizeProduct_fields parseF p rec h).2.2

/-! ## Claim C4 -/

/-- Claim C4: when filtering the (possibly category-fallback) candidate
set to records with `review_count ≥ 5` is empty, `product_recommendation`
returns the top 5 by rating from the original unfiltered set (rated rows
first, unrated rows padding the result when fewer than 5 are rated),
bypassing the review-count floor; otherwise it returns the top 5 of the
filtered set by the score `(rating/5 × 70) + (review_count /
max(review_count) × 30)` with absent rating treated as 0. -/
theorem product_recommendation_spec :
    ∀ df : List Record, ∀ category : String,
      (∀ m : ℤ, ∀ r : Record,
        score m r = r.rating.getD 0 / 5 * 70 +
          (r.review_count : ℚ) / (m : ℚ) * 30) ∧
      (((candidates df category).filter fun r =>
          5 ≤ r.review_count).isEmpty = true →
        product_recommendation df category = nlargestRating 5 df) ∧
      (((candidates df category).filter fun r =>
          5 ≤ r.review_count).isEmpty = false →
        product_recommendation df category =
          nlargestScore 5
            ((candidates df category).filter fun r =>
              5 ≤ r.review_count)) := by
  intro df category
  refine ⟨fun m r => rfl, ?_, ?_⟩
  · intro h
    show (if ((candidates df category).filter fun r =>
          5 ≤ r.review_count).isEmpty = true then nlargestRating 5 df
        else nlargestScore 5 ((candidates df category).filter fun r =>
          5 ≤ r.review_count)) = nlargestRating 5 df
    rw [if_pos h]
  · intro h
    show (if ((candidates df category).filter fun r =>
          5 ≤ r.review_count).isEmpty = true then nlargestRating 5 df
        else nlargestScore 5 ((candidates df category).filter fun r =>
          5 ≤ r.review_count)) =
      nlargestScore 5 ((candidates df category).filter fun r =>
        5 ≤ r.review_count)
    rw [if_neg (by rw [h]; exact Bool.false_ne_true)]

/-! ## Claim C9 -/

/-- The fold computing a running maximum never drops below its start. -/
theorem foldl_max_init (t : List Record) : ∀ init : ℤ,
    init ≤ t.foldl (fun m y => max m y.review_count) init := by
  induction t with
  | nil => intro init; exact le_refl init
  | cons y t ih =>
    intro init
    rw [List.foldl_cons]
    exact le_trans (le_max_left init y.review_count) (ih _)

/-- The running maximum dominates every traversed element. -/
theorem foldl_max_mem (r : Record) : ∀ t : List Record, r ∈ t →
    ∀ init : ℤ,
      r.review_count ≤ t.foldl (fun m y => max m y.review_count) init := by
  intro t
  induction t with
  | nil => intro hr; exact absurd hr (List.not_mem_nil r)
  | cons y t ih =>
    intro hr init
    rw [List.foldl_cons]
    rcases List.mem_cons.mp hr with h | h
    · subst h
      exact le_trans (le_max_right init r.review_count) (foldl_max_init t _)
    · exact ih h _

/-- `maxReview` dominates the review count of every member. -/
theorem maxReview_mem (r : Record) (rs : List Record) (hr : r ∈ rs) :
    r.review_count ≤ maxReview rs := by
  cases rs with
  | nil => exact absurd hr (List.not_mem_nil r)
  | cons x t =>
    rcases List.mem_cons.mp hr with h | h
    · subst h
      exact foldl_max_init t _
    · exact foldl_max_mem r t h _

/-- Claim C9: in the weighted-score branch (non-empty review-count
filter) the maximum review count of the filtered set is at least 5 and
in particular non-zero as a rational, so the division
`review_count / max(review_count)` in the score is well-defined. -/
theorem score_denominator_positive :
    ∀ df : List Record, ∀ category : String,
      ((candidates df category).filter fun r => 5 ≤ r.review_count) ≠ [] →
      5 ≤ maxReview
          ((candidates df category).filter fun r => 5 ≤ r.review_count) ∧
      ((maxReview ((candidates df category).filter fun r =>
          5 ≤ r.review_count) : ℤ) : ℚ) ≠ 0 := by
  intro df category hne
  obtain ⟨x, hx⟩ := List.exists_mem_of_ne_nil _ hne
  have hx5 : 5 ≤ x.review_count :=
    of_decide_eq_true (List.mem_filter.mp hx).2
  have hmax : 5 ≤ maxReview
      ((candidates df category).filter fun r => 5 ≤ r.review_count) :=
    le_trans hx5 (maxReview_mem x _ hx)
  refine ⟨hmax, ?_⟩
  have h0 : maxReview ((candidates df category).filter fun r =>
      5 ≤ r.review_count) ≠ 0 := by omega
  exact_mod_cast h0

/-- Category matching keeps `sampleRec` (its own category text). -/
theorem filter_contains_sample :
    ([sampleRec].filter fun r => containsCI r.category "c") =
      [sampleRec] := by
  have hc : containsCI sampleRec.category "c" = true :=
    decide_eq_true (List.infix_refl _)
  simp [List.filter_cons, hc]

/-- The candidate set of the one-record table. -/
theorem candidates_sample : candidates [sampleRec] "c" = [sampleRec] := by
  unfold candidates
  rw [filter_contains_sample]
  rfl

/-- The review-count filter keeps `sampleRec` (7 reviews). -/
theorem filtered_sample :
    ((candidates [sampleRec] "c").filter fun r => 5 ≤ r.review_count) =
      [sampleRec] := by
  rw [candidates_sample]
  norm_num [List.filter_cons, sampleRec]

/-- Claim C9, witness: the one-record table around `sampleRec`
(7 reviews) instantiates the bound. -/
theorem score_denominator_positive_witness :
    5 ≤ maxReview
        ((candidates [sampleRec] "c").filter fun r => 5 ≤ r.review_count) ∧
    ((maxReview ((candidates [sampleRec] "c").filter fun r =>
        5 ≤ r.review_count) : ℤ) : ℚ) ≠ 0 :=
  score_denominator_positive [sampleRec] "c"
    (by rw [filtered_sample]; exact List.cons_ne_nil sampleRec [])

end FMCG
